import Mathlib

/-!
Shallow embedding of the Angular animation timeline compiler
(`packages/animations/browser/src/dsl/animation_timeline_builder.ts`) and its
timing/interpolation utilities (`packages/animations/browser/src/util.ts`).

Modelling conventions:
* JS numbers are modelled by `ℚ`; where a non-finite result (`NaN`, `±Infinity`)
  is possible it is modelled by `Option ℚ` with `none` for the non-finite value.
* JS style objects (`ɵStyleData`) are insertion-ordered string maps, modelled
  as association lists with update-in-place (`smSet`), matching the property
  order semantics of `Object.keys` on non-integer keys.
* Prototypal inheritance of keyframes from the timeline's `_backFill` object is
  modelled as an explicit two-level lookup (own map, then backfill map).
* The per-element `_elementTimelineStylesLookup` map is threaded explicitly as
  a `Store`.  In the source the first builder created for an element has its
  `_globalTimelineStyles` alias its `_localTimelineStyles`; since every write
  of `_updateStyle` goes to both objects and all global reads are own-property
  reads, keeping two maps that receive identical writes is observationally
  identical to the aliasing for every flow modelled here (no flow reads the
  first builder's local state after another builder of the same element has
  written the shared entry).
-/

-- The library's rational arithmetic is sealed; expose it so that concrete
-- runs of the embedded compiler can be evaluated inside proofs.
unseal Rat.add Rat.mul Rat.sub Rat.inv

/-- A JS style value: a string or a (finite) number. -/
inductive SVal where
  | str (s : String)
  | num (q : ℚ)
deriving DecidableEq, Repr

/-- `AUTO_STYLE` (`'*'`) from `@angular/animations`. -/
def AUTO_STYLE : SVal := .str "*"

/-- `ɵPRE_STYLE` (`'!'`) from `@angular/animations`. -/
def PRE_STYLE : SVal := .str "!"

/-- A JS style object: insertion-ordered map from property names to values. -/
abbrev StyleMap := List (String × SVal)

/-- Read a property (own properties only). -/
def smGet (m : StyleMap) (k : String) : Option SVal :=
  (m.find? (fun p => p.1 == k)).map (·.2)

/-- Write a property: updates in place if present (keeping its position in the
insertion order, as JS objects do), otherwise appends. -/
def smSet (m : StyleMap) (k : String) (v : SVal) : StyleMap :=
  if (m.find? (fun p => p.1 == k)).isSome then
    m.map (fun p => if p.1 == k then (k, v) else p)
  else
    m ++ [(k, v)]

/-- JS truthiness of a possibly-missing style value: `undefined`, `''` and `0`
are falsy, everything else occurring here is truthy. -/
def jsFalsy : Option SVal → Bool
  | none => true
  | some (.str s) => s == ""
  | some (.num q) => q == 0

/-- JS truthiness of a `string | null` value (`null` and `''` are falsy). -/
def jsTruthyStr : Option String → Bool
  | none => false
  | some s => s != ""

/-- The shared `_elementTimelineStylesLookup : Map<elm, ɵStyleData>`, keyed by
an opaque element handle (modelled as a `String`). -/
abbrev Store := List (String × StyleMap)

def storeGet (st : Store) (e : String) : Option StyleMap :=
  (st.find? (fun p => p.1 == e)).map (·.2)

def storeSet (st : Store) (e : String) (m : StyleMap) : Store :=
  if (st.find? (fun p => p.1 == e)).isSome then
    st.map (fun p => if p.1 == e then (e, m) else p)
  else
    st ++ [(e, m)]

/-- Update one property inside the store entry of element `e`. -/
def storeSetProp (st : Store) (e : String) (k : String) (v : SVal) : Store :=
  storeSet st e (smSet ((storeGet st e).getD []) k v)

/- ---------------------------------------------------------------------------
util.ts
--------------------------------------------------------------------------- -/

/-- `ONE_SECOND` from util.ts. -/
def ONE_SECOND : ℚ := 1000

/-- Rendering of a number by JS `toString`.  Only integral values reach this
function in the present development (the interpolation paths that would render
a number are exercised with integral or string values only); a non-integral
rational is rendered as `num/den`. -/
def qToString (q : ℚ) : String :=
  if q.den = 1 then toString q.num else toString q.num ++ "/" ++ toString q.den

/-- `value.toString()` on a style value. -/
def SVal.toStr : SVal → String
  | .str s => s
  | .num q => qToString q

/-- Variable bindings (`locals`): `$name → value`. -/
abbrev Locals := List (String × SVal)

def localsGet (l : Locals) (k : String) : Option SVal :=
  (l.find? (fun p => p.1 == k)).map (·.2)

/-- `\w` character class. -/
def isWordChar (c : Char) : Bool := c.isAlphanum || c == '_'

/-- `\s` character class (ASCII part; the inputs here contain only ASCII). -/
def isSpaceChar (c : Char) : Bool :=
  c == ' ' || c == '\t' || c == '\n' || c == '\r' || c == '\x0b' || c == '\x0c'

theorem dropWhile_length_le {α : Type} (p : α → Bool) (l : List α) :
    (l.dropWhile p).length ≤ l.length := by
  induction l with
  | nil => simp [List.dropWhile]
  | cons a t ih =>
    by_cases h : p a
    · simp only [List.dropWhile, h]
      exact le_trans ih (Nat.le_succ _)
    · simp only [List.dropWhile, h]
      simp

/-- One global-replace pass of `SIMPLE_STYLE_INTERPOLATION_REGEX = /\$\w+/g`
(from `matchAndReplace`): each `$name` token is replaced by the bound value's
string rendering, or by `''` with an error pushed when the name is unbound. -/
def replaceSimple (locals : Locals) : List Char → List String → List Char × List String
  | [], errs => ([], errs)
  | c :: rest, errs =>
    if c == '$' then
      let w := rest.takeWhile isWordChar
      if w.isEmpty then
        let (out, e) := replaceSimple locals rest errs
        ('$' :: out, e)
      else
        let varName := String.mk ('$' :: w)
        let rest' := rest.dropWhile isWordChar
        match localsGet locals varName with
        | some v =>
          let (out, e) := replaceSimple locals rest' errs
          ((SVal.toStr v).data ++ out, e)
        | none =>
          let (out, e) := replaceSimple locals rest'
            (errs ++ [s!"Please provide a value for the animation variable {varName}"])
          (out, e)
    else
      let (out, e) := replaceSimple locals rest errs
      (c :: out, e)
termination_by cs _ => cs.length
decreasing_by
  all_goals simp_wf
  all_goals first
    | omega
    | exact Nat.lt_succ_of_le (dropWhile_length_le _ _)

/-- One global-replace pass of
`ADVANCED_STYLE_INTERPOLATION_REGEX = /\$\{([-\w\s]+)\}/g`. -/
def replaceAdvanced (locals : Locals) : List Char → List String → List Char × List String
  | [], errs => ([], errs)
  | c :: rest, errs =>
    if c == '$' then
      match rest with
      | '{' :: body =>
        let w := body.takeWhile (fun ch => isWordChar ch || ch == '-' || isSpaceChar ch)
        if w.isEmpty then
          let (out, e) := replaceAdvanced locals ('{' :: body) errs
          ('$' :: out, e)
        else
          match hb : body.dropWhile (fun ch => isWordChar ch || ch == '-' || isSpaceChar ch) with
          | '}' :: after =>
            let varName := String.mk ('$' :: w)
            let exp := String.mk ('$' :: '{' :: (w ++ ['}']))
            (match localsGet locals varName with
            | some v =>
              let (out, e) := replaceAdvanced locals after errs
              ((SVal.toStr v).data ++ out, e)
            | none =>
              let (out, e) := replaceAdvanced locals after
                (errs ++ [s!"Please provide a value for the animation variable {exp}"])
              (out, e))
          | _ =>
            let (out, e) := replaceAdvanced locals ('{' :: body) errs
            ('$' :: out, e)
      | other =>
        let (out, e) := replaceAdvanced locals other errs
        ('$' :: out, e)
    else
      let (out, e) := replaceAdvanced locals rest errs
      (c :: out, e)
termination_by cs _ => cs.length
decreasing_by
  all_goals simp_wf
  all_goals first
    | omega
    | { have h1 := dropWhile_length_le
          (fun ch => isWordChar ch || ch == '-' || isSpaceChar ch) body
        rw [hb] at h1
        simp at h1
        omega }

/-- `interpolateLocals` from util.ts: run both replacement passes over the
value's string rendering; if nothing changed, the original value (with its
original type) is returned.  A number's rendering never contains `'$'`, so for
numeric values both passes are the identity and the number passes through
unchanged (as the source comment "numeric values stay as they are" notes). -/
def interpolateLocals (value : SVal) (locals : Locals) (errors : List String) :
    SVal × List String :=
  match value with
  | .num q => (.num q, errors)
  | .str original =>
    let (s1, e1) := replaceSimple locals original.data errors
    let (s2, e2) := replaceAdvanced locals s1 e1
    let str := String.mk s2
    (if str == original then .str original else .str str, e2)

/-- JS `parseFloat` restricted to the strings matched by `-?[\.\d]+` (the only
shapes the timing regexes can produce): longest valid prefix of the form
`-?digits[.digits]`; `none` models `NaN` (no digits at all). -/
def parseFloatQ (s : String) : Option ℚ :=
  let cs := s.data
  let (neg, cs) := match cs with
    | '-' :: r => (true, r)
    | r => (false, r)
  let intPart := cs.takeWhile Char.isDigit
  let rest := cs.dropWhile Char.isDigit
  let fracPart := match rest with
    | '.' :: r => r.takeWhile Char.isDigit
    | _ => []
  if intPart.isEmpty && fracPart.isEmpty then none
  else
    let intVal : ℕ := intPart.foldl (fun acc c => 10 * acc + (c.toNat - '0'.toNat)) 0
    let fracVal : ℕ := fracPart.foldl (fun acc c => 10 * acc + (c.toNat - '0'.toNat)) 0
    let mag : ℚ := (intVal : ℚ) + (fracVal : ℚ) / ((10 : ℚ) ^ fracPart.length)
    some (if neg then -mag else mag)

/-- `_convertTimeValueToMS` from util.ts: seconds are scaled by 1000, anything
else (i.e. `ms`) passes through. -/
def _convertTimeValueToMS (value : ℚ) (unit : String) : ℚ :=
  if unit = "s" then value * ONE_SECOND else value

/-- `resolveTimingValue` from util.ts (string case is
`/^(-?[\.\d]+)(m?s)/`; on no match the result is 0). -/
def resolveTimingValueStr (value : String) : ℚ :=
  let cs := value.data
  let (sign, cs') := match cs with
    | '-' :: r => (("-" : String), r)
    | r => ("", r)
  let numChars := cs'.takeWhile (fun c => c == '.' || c.isDigit)
  let rest := cs'.dropWhile (fun c => c == '.' || c.isDigit)
  if numChars.isEmpty then 0
  else
    let unit : Option String := match rest with
      | 'm' :: 's' :: _ => some "ms"
      | 's' :: _ => some "s"
      | _ => none
    match unit with
    | none => 0
    | some u =>
      match parseFloatQ (sign ++ String.mk numChars) with
      | none => 0
      | some v => _convertTimeValueToMS v u

/- The timing-expression regex of `parseTimeExpression`:
`/^(-?[\.\d]+)(m?s)(?:\s+(-?[\.\d]+)(m?s))?(?:\s+([-a-z]+(?:\(.+?\))?))?$/i`,
implemented as a deterministic parser.  Maximal munch is safe for every
repetition here because the character classes of adjacent regex pieces are
disjoint, and the single point of real backtracking (dropping the optional
delay group when the remainder cannot complete the match) is made explicit. -/

/-- The capture groups of a successful match of the timing regex. -/
structure TimingMatch where
  durNum : String
  durUnit : String
  delayPart : Option (String × String)
  easing : Option String
deriving DecidableEq, Repr

/-- Match `(-?[\.\d]+)`: optional minus, then a nonempty run of `[.0-9]`. -/
def takeNumChars : List Char → Option (List Char × List Char)
  | '-' :: rest =>
    let ds := rest.takeWhile (fun c => c == '.' || c.isDigit)
    if ds.isEmpty then none
    else some ('-' :: ds, rest.dropWhile (fun c => c == '.' || c.isDigit))
  | cs =>
    let ds := cs.takeWhile (fun c => c == '.' || c.isDigit)
    if ds.isEmpty then none
    else some (ds, cs.dropWhile (fun c => c == '.' || c.isDigit))

/-- Match `(m?s)` case-insensitively, keeping the original characters. -/
def takeUnitChars : List Char → Option (List Char × List Char)
  | c1 :: c2 :: rest =>
    if c1.toLower == 'm' && c2.toLower == 's' then some ([c1, c2], rest)
    else if c1.toLower == 's' then some ([c1], c2 :: rest)
    else none
  | [c1] => if c1.toLower == 's' then some ([c1], []) else none
  | [] => none

/-- Match `\s+`, returning the remainder. -/
def takeWS1 : List Char → Option (List Char)
  | c :: rest =>
    if isSpaceChar c then some (rest.dropWhile isSpaceChar) else none
  | [] => none

/-- `[-a-z]` with the `i` flag. -/
def isEasingChar (c : Char) : Bool :=
  c == '-' || ('a' ≤ c.toLower && c.toLower ≤ 'z')

/-- Match the optional trailing `(?:\s+([-a-z]+(?:\(.+?\))?))?$`.
Returns `none` when the remainder cannot complete the match, `some none` when
the remainder is empty (group absent), and `some (some e)` with the captured
easing text otherwise.  The lazy `\(.+?\)` followed by `$` matches exactly when
the remainder after the letter run is a parenthesis group reaching the end of
the string with a nonempty body free of line terminators. -/
def parseEasingEnd (cs : List Char) : Option (Option String) :=
  if cs.isEmpty then some none
  else
    match takeWS1 cs with
    | none => none
    | some afterWS =>
      let run := afterWS.takeWhile isEasingChar
      let after := afterWS.dropWhile isEasingChar
      if run.isEmpty then none
      else if after.isEmpty then some (some (String.mk run))
      else
        match after with
        | '(' :: tail =>
          if tail.getLast? == some ')' && !tail.dropLast.isEmpty &&
              tail.dropLast.all (fun c => c != '\n' && c != '\r') then
            some (some (String.mk (run ++ after)))
          else none
        | _ => none

/-- The full timing regex. -/
def parseTimingRegex (s : String) : Option TimingMatch :=
  match takeNumChars s.data with
  | none => none
  | some (n1, r1) =>
    match takeUnitChars r1 with
    | none => none
    | some (u1, r2) =>
      -- optional delay group, with explicit backtracking to the group-absent
      -- alternative when the rest of the pattern cannot complete
      let withDelay : Option TimingMatch :=
        match takeWS1 r2 with
        | none => none
        | some afterWS =>
          match takeNumChars afterWS with
          | none => none
          | some (n2, r3) =>
            match takeUnitChars r3 with
            | none => none
            | some (u2, r4) =>
              match parseEasingEnd r4 with
              | none => none
              | some e =>
                some ⟨String.mk n1, String.mk u1, some (String.mk n2, String.mk u2), e⟩
      match withDelay with
      | some m => some m
      | none =>
        match parseEasingEnd r2 with
        | none => none
        | some e => some ⟨String.mk n1, String.mk u1, none, e⟩

/-- `AnimateTimings` as produced by the timing resolver.  `none` models `NaN`
(a duration or delay whose numeric part parsed to `NaN`). -/
structure ParsedTimings where
  duration : Option ℚ
  delay : Option ℚ
  easing : String
deriving DecidableEq, Repr

/-- The `string | number` argument of `parseTimeExpression`. -/
inductive TimingExp where
  | str (s : String)
  | num (q : ℚ)
deriving DecidableEq, Repr

def TimingExp.render : TimingExp → String
  | .str s => s
  | .num q => qToString q

/-- Is a (possibly-NaN) number `< 0`?  (`NaN < 0` is false in JS.) -/
def negQ : Option ℚ → Bool
  | none => false
  | some q => q < 0

/-- The timings extracted from a successful regex match: the duration is
converted as parsed, the delay's numeric part passes through `Math.floor`
before unit conversion, the easing defaults to `''`. -/
def timingsOfMatch (m : TimingMatch) : ParsedTimings :=
  { duration := (parseFloatQ m.durNum).map (fun v => _convertTimeValueToMS v m.durUnit)
    delay := match m.delayPart with
      | none => some 0
      | some (dn, du) => (parseFloatQ dn).map (fun v => _convertTimeValueToMS (⌊v⌋ : ℚ) du)
    easing := (m.easing).getD "" }

/-- `parseTimeExpression` from util.ts. -/
def parseTimeExpression (exp : TimingExp) (errors : List String)
    (allowNegativeValues : Bool) : ParsedTimings × List String :=
  match exp with
  | .str s =>
    match parseTimingRegex s with
    | none =>
      ({duration := some 0, delay := some 0, easing := ""},
        errors ++ [s!"The provided timing value \"{s}\" is invalid."])
    | some m =>
      let t := timingsOfMatch m
      if !allowNegativeValues then
        let negErrs :=
          (if negQ t.duration then
            ["Duration values below 0 are not allowed for this animation step."] else []) ++
          (if negQ t.delay then
            ["Delay values below 0 are not allowed for this animation step."] else [])
        if negErrs.isEmpty then (t, errors)
        else (t, errors ++ [s!"The provided timing value \"{s}\" is invalid."] ++ negErrs)
      else (t, errors)
  | .num q =>
    let t : ParsedTimings := {duration := some q, delay := some 0, easing := ""}
    if !allowNegativeValues then
      let negErrs :=
        (if negQ t.duration then
          ["Duration values below 0 are not allowed for this animation step."] else []) ++
        (if negQ t.delay then
          ["Delay values below 0 are not allowed for this animation step."] else [])
      if negErrs.isEmpty then (t, errors)
      else (t, errors ++ [s!"The provided timing value \"{exp.render}\" is invalid."] ++ negErrs)
    else (t, errors)

/-- The `string | number | AnimateTimings` argument of `resolveTiming`. -/
inductive ResolveInput where
  | str (s : String)
  | num (q : ℚ)
  | timings (t : ParsedTimings)
deriving DecidableEq, Repr

/-- `resolveTiming` from util.ts: a value that already carries a `duration`
property is returned as-is, everything else goes through the parser. -/
def resolveTiming (timings : ResolveInput) (errors : List String)
    (allowNegativeValues : Bool) : ParsedTimings × List String :=
  match timings with
  | .timings t => (t, errors)
  | .str s => parseTimeExpression (.str s) errors allowNegativeValues
  | .num q => parseTimeExpression (.num q) errors allowNegativeValues

/- ---------------------------------------------------------------------------
TimelineBuilder (animation_timeline_builder.ts)
--------------------------------------------------------------------------- -/

/-- A style token passed to `setStyles`: a concrete style object or the `'*'`
wildcard. -/
inductive StyleToken where
  | star
  | map (m : StyleMap)
deriving DecidableEq, Repr

/-- `flattenStyles` from animation_timeline_builder.ts: `'*'` expands to all
properties of `allStyles` bound to `AUTO_STYLE`; concrete objects are copied
over the accumulator. -/
def flattenStyles (input : List StyleToken) (allStyles : StyleMap) : StyleMap :=
  input.foldl
    (fun acc tok =>
      match tok with
      | .star => allStyles.foldl (fun a p => smSet a p.1 AUTO_STYLE) acc
      | .map m => m.foldl (fun a p => smSet a p.1 p.2) acc)
    []

/-- The state of one `TimelineBuilder`.

* `keyframes` is the `Map<number, ɵStyleData>` in insertion order; each entry
  holds the keyframe's *own* properties (the prototype chain to `_backFill` is
  the explicit second-level lookup).
* `prevKF` is the time key of `_previousKeyframe` (`none` models the detached
  initial `{}` object that is never inside the map).
* `emptyStepKF` is the time key of `_currentEmptyStepKeyframe` (`none` = null).
  Within one builder the map's keyframe objects are in bijection with their
  time keys, so reference identity of keyframe objects coincides with equality
  of time keys.
* `localOwn` holds the own properties of `_localTimelineStyles` (which
  prototypally inherits from `_backFill`; reads through the prototype are
  modelled by `localStyleGet`).
* `_globalTimelineStyles` is the store entry of `element` (see the header
  comment about the root-builder aliasing). -/
structure TimelineBuilder where
  element : String
  startTime : ℚ
  duration : ℚ
  keyframes : List (ℚ × StyleMap)
  prevKF : Option ℚ
  backFill : StyleMap
  localOwn : StyleMap
  styleSummary : List (String × ℚ × SVal)
  easing : Option String
  emptyStepKF : Option ℚ
deriving DecidableEq, Repr

namespace TimelineBuilder

/-- `new TimelineBuilder(element, startTime, lookup)`: registers the element in
the shared lookup if absent (the source stores the builder's then-empty local
style object there) and loads the keyframe at time 0; the initial
`_previousKeyframe` is a detached object. -/
def mkBuilder (element : String) (startTime : ℚ) (store : Store) :
    TimelineBuilder × Store :=
  let store' := if (storeGet store element).isSome then store else storeSet store element []
  (⟨element, startTime, 0, [(0, [])], none, [], [], [], none, none⟩, store')

def currentTime (t : TimelineBuilder) : ℚ := t.startTime + t.duration

/-- `containsAnimation(): this._keyframes.size > 1`. -/
def containsAnimation (t : TimelineBuilder) : Bool := t.keyframes.length > 1

/-- `allowOnlyTimelineStyles(): this._currentEmptyStepKeyframe !== this._currentKeyframe`. -/
def allowOnlyTimelineStyles (t : TimelineBuilder) : Bool :=
  t.emptyStepKF != some t.duration

/-- The own map of the current keyframe (the object at key `duration`). -/
def currentKF (t : TimelineBuilder) : StyleMap :=
  ((t.keyframes.find? (fun p => decide (p.1 = t.duration))).map (·.2)).getD []

/-- `getCurrentStyleProperties(): Object.keys(this._currentKeyframe)`. -/
def getCurrentStyleProperties (t : TimelineBuilder) : List String :=
  t.currentKF.map (·.1)

/-- Mutate the current keyframe object.  In the source the current keyframe is
always an entry of the map (constructor / `_loadKeyframe` invariant); for
arbitrary model states the entry is created if missing. -/
def updateCurrentKF (t : TimelineBuilder) (f : StyleMap → StyleMap) : TimelineBuilder :=
  if (t.keyframes.find? (fun p => decide (p.1 = t.duration))).isSome then
    { t with keyframes :=
        t.keyframes.map (fun p => if p.1 = t.duration then (p.1, f p.2) else p) }
  else
    { t with keyframes := t.keyframes ++ [(t.duration, f [])] }

/-- Mutate the previous keyframe object (`_previousKeyframe`); a write to the
detached initial object (`prevKF = none`) is lost. -/
def updatePrevKF (t : TimelineBuilder) (f : StyleMap → StyleMap) : TimelineBuilder :=
  match t.prevKF with
  | none => t
  | some pt =>
    { t with keyframes :=
        t.keyframes.map (fun p => if p.1 = pt then (p.1, f p.2) else p) }

/-- `_loadKeyframe`: the old current keyframe becomes the previous one, and
the keyframe at the (new) `duration` is looked up or created. -/
def loadKeyframe (t : TimelineBuilder) (prevTime : ℚ) : TimelineBuilder :=
  let t := { t with prevKF := some prevTime }
  if (t.keyframes.find? (fun p => decide (p.1 = t.duration))).isSome then t
  else { t with keyframes := t.keyframes ++ [(t.duration, [])] }

/-- `forwardTime(time): this.duration = time; this._loadKeyframe()`. -/
def forwardTime (t : TimelineBuilder) (time : ℚ) : TimelineBuilder :=
  loadKeyframe { t with duration := time } t.duration

/-- `forwardFrame(): this.duration++; this._loadKeyframe()`. -/
def forwardFrame (t : TimelineBuilder) : TimelineBuilder :=
  loadKeyframe { t with duration := t.duration + 1 } t.duration

/-- `delayNextStep(delay)` on the builder (no sign check at this level). -/
def delayNextStep (t : TimelineBuilder) (delay : ℚ) : TimelineBuilder :=
  if t.duration = 0 then { t with startTime := t.startTime + delay }
  else t.forwardTime (t.currentTime + delay)

/-- `fork(element, currentTime = 0)` — note the `currentTime || this.currentTime`
default (a passed 0 falls back to the builder's current time). -/
def fork (t : TimelineBuilder) (element : String) (time : ℚ) (store : Store) :
    TimelineBuilder × Store :=
  mkBuilder element (if time = 0 then t.currentTime else time) store

/-- `this._globalTimelineStyles` (the store entry of the builder's element). -/
def globalStyles (t : TimelineBuilder) (store : Store) : StyleMap :=
  (storeGet store t.element).getD []

/-- Read of `this._localTimelineStyles[prop]` (through the prototype chain to
`_backFill`). -/
def localStyleGet (t : TimelineBuilder) (prop : String) : Option SVal :=
  match smGet t.localOwn prop with
  | some v => some v
  | none => smGet t.backFill prop

/-- `_updateStyle(prop, value)`: skips the reserved `'easing'` key, otherwise
writes the local style state, the shared global style state and the style
summary (stamped with *this* builder's current time). -/
def updateStyle (t : TimelineBuilder) (store : Store) (prop : String) (value : SVal) :
    TimelineBuilder × Store :=
  if prop = "easing" then (t, store)
  else
    ({ t with
        localOwn := smSet t.localOwn prop value
        styleSummary :=
          if (t.styleSummary.find? (fun p => p.1 == prop)).isSome then
            t.styleSummary.map (fun p => if p.1 == prop then (prop, t.currentTime, value) else p)
          else t.styleSummary ++ [(prop, t.currentTime, value)] },
      storeSetProp store t.element prop value)

/-- Lookup in the style summary. -/
def summaryGet (t : TimelineBuilder) (prop : String) : Option (ℚ × SVal) :=
  (t.styleSummary.find? (fun p => p.1 == prop)).map (·.2)

/-- The `treatAsEmptyStep` branch of `setStyles`: every property known to the
global style state is backfilled (falsy global values degrade to `AUTO_STYLE`)
and written as `AUTO_STYLE` on the current keyframe, which becomes the
designated empty-step keyframe. -/
def emptyStepEntry (acc : TimelineBuilder) (p : String × SVal) : TimelineBuilder :=
  let bf := smSet acc.backFill p.1 (if jsFalsy (some p.2) then AUTO_STYLE else p.2)
  let acc := { acc with backFill := bf }
  acc.updateCurrentKF (fun kf => smSet kf p.1 AUTO_STYLE)

def setStylesEmptyStep (t : TimelineBuilder) (store : Store) : TimelineBuilder :=
  let g := t.globalStyles store
  let t := g.foldl emptyStepEntry t
  { t with emptyStepKF := some t.duration }

/-- `this._globalTimelineStyles.hasOwnProperty(prop) ?
this._globalTimelineStyles[prop] : AUTO_STYLE` (line 640). -/
def backFillLookup (g : StyleMap) (prop : String) : SVal :=
  match smGet g prop with
  | some gv => gv
  | none => AUTO_STYLE

/-- One iteration of the `Object.keys(styles).forEach` loop in `setStyles`. -/
def applyStyleEntry (locals : Option Locals) :
    TimelineBuilder × Store × List String → String × SVal →
    TimelineBuilder × Store × List String
  | (t, store, errors), (prop, v0) =>
    let (v, errors) :=
      match locals with
      | some l => interpolateLocals v0 l errors
      | none => (v0, errors)
    let t := t.updateCurrentKF (fun kf => smSet kf prop v)
    let gval : SVal := backFillLookup (t.globalStyles store) prop
    let t :=
      if jsFalsy (t.localStyleGet prop) then
        { t with backFill := smSet t.backFill prop gval }
      else t
    let (t, store) := t.updateStyle store prop v
    (t, store, errors)

/-- One iteration of the closing `Object.keys(this._localTimelineStyles)` loop
of `setStyles` (copy accumulated local styles into the current keyframe when
missing there). -/
def copyLocalEntry (t : TimelineBuilder) (p : String × SVal) : TimelineBuilder :=
  if (smGet t.currentKF p.1).isSome then t
  else t.updateCurrentKF (fun kf => smSet kf p.1 p.2)

/-- `setStyles(input, easing, treatAsEmptyStep, errors, locals)`. -/
def setStyles (t : TimelineBuilder) (store : Store) (errors : List String)
    (input : List StyleToken) (easing : Option String) (treatAsEmptyStep : Bool)
    (locals : Option Locals) : TimelineBuilder × Store × List String :=
  let t :=
    if jsTruthyStr easing then
      t.updatePrevKF (fun kf => smSet kf "easing" (.str (easing.getD "")))
    else t
  if treatAsEmptyStep then (t.setStylesEmptyStep store, store, errors)
  else
    let styles := flattenStyles input (t.globalStyles store)
    let (t, store, errors) := styles.foldl (applyStyleEntry locals) (t, store, errors)
    let t := t.localOwn.foldl copyLocalEntry t
    (t, store, errors)

/-- `snapshotCurrentStyles(): copyStyles(this._localTimelineStyles, false, this._currentKeyframe)`
(own properties of the local style state only). -/
def snapshotCurrentStyles (t : TimelineBuilder) : TimelineBuilder :=
  t.updateCurrentKF (fun kf => t.localOwn.foldl (fun acc p => smSet acc p.1 p.2) kf)

/-- `mergeTimelineCollectedStyles(timeline)`: adopt the other summary's value
when this builder never wrote the property or wrote it earlier.  Note that the
adopted value is re-stamped (by `_updateStyle`) with *this* builder's current
time, not with the other timeline's timestamp. -/
def mergeTimelineCollectedStyles (t : TimelineBuilder) (store : Store)
    (other : TimelineBuilder) : TimelineBuilder × Store :=
  other.styleSummary.foldl
    (fun (acc : TimelineBuilder × Store) e =>
      match e with
      | (prop, t1, v1) =>
        match acc.1.summaryGet prop with
        | none => acc.1.updateStyle acc.2 prop v1
        | some (t0, _) => if t1 > t0 then acc.1.updateStyle acc.2 prop v1 else acc)
    (t, store)

end TimelineBuilder

/- ---------------------------------------------------------------------------
Compiled instructions (animation_timeline_instruction.ts is not among the
sources; the instruction record is modelled from the spec)
--------------------------------------------------------------------------- -/

/-- One finalized keyframe: the style snapshot plus the normalized `offset`
slot the source stores in-band under the `'offset'` key (kept as a separate
field here; `none` models a non-finite offset such as `0/0`). -/
structure FinalKeyframe where
  styles : StyleMap
  offset : Option ℚ
deriving DecidableEq, Repr

/-- Modelled from the spec: the Compiled Instruction record produced by
`createTimelineInstruction(element, keyframes, preStyleProps, postStyleProps,
duration, delay, easing, subTimeline)` (§3: element, keyframes with normalized
offsets, pre-styles, post-styles, duration, startDelay, easing, stretched-flag;
the constructor itself lives in `animation_timeline_instruction.ts`, which is
not part of the given sources). -/
structure AnimationTimelineInstruction where
  element : String
  keyframes : List FinalKeyframe
  preStyleProps : List String
  postStyleProps : List String
  duration : ℚ
  delay : ℚ
  easing : Option String
  subTimeline : Bool
deriving DecidableEq, Repr

/-- JS division where a zero divisor yields a non-finite number
(`0/0 = NaN`, `x/0 = ±Infinity`), modelled as `none`. -/
def jsDiv (a b : ℚ) : Option ℚ := if b = 0 then none else some (a / b)

/-- Flatten a keyframe's own properties together with the backfill properties
it prototypally inherits (`copyStyles(keyframe, true)`: own properties first,
then non-shadowed prototype properties). -/
def protoFlatten (own backFill : StyleMap) : StyleMap :=
  own ++ backFill.filter (fun p => !(smGet own p.1).isSome)

/-- `Set`-like insertion used for `preStyleProps`/`postStyleProps`. -/
def addUnique (l : List String) (s : String) : List String :=
  if s ∈ l then l else l ++ [s]

namespace TimelineBuilder

/-- `buildKeyframes()` of `TimelineBuilder`: flatten each keyframe through the
backfill prototype, collect `ɵPRE_STYLE`/`AUTO_STYLE` properties, and assign
each keyframe the offset `time / duration`. -/
def buildKeyframes (t : TimelineBuilder) : AnimationTimelineInstruction :=
  let finalKeyframes := t.keyframes.map
    (fun p => FinalKeyframe.mk (protoFlatten p.2 t.backFill) (jsDiv p.1 t.duration))
  let preStyleProps := finalKeyframes.foldl
    (fun acc kf => kf.styles.foldl
      (fun a q => if q.2 = PRE_STYLE then addUnique a q.1 else a) acc) []
  let postStyleProps := finalKeyframes.foldl
    (fun acc kf => kf.styles.foldl
      (fun a q => if q.2 = AUTO_STYLE then addUnique a q.1 else a) acc) []
  ⟨t.element, finalKeyframes, preStyleProps, postStyleProps, t.duration,
    t.startTime, t.easing, false⟩

end TimelineBuilder

/-- `roundOffset(offset, decimalPoints = 3)`: `Math.round(offset * 10^(dp-1)) /
10^(dp-1)` — with the default argument this rounds to 2 decimal places.
`Math.round` rounds half-up: `⌊x + 1/2⌋`. -/
def roundOffset (offset : ℚ) (decimalPoints : ℕ) : ℚ :=
  let mult : ℚ := (10 : ℚ) ^ (decimalPoints - 1)
  ((⌊offset * mult + 1/2⌋ : ℤ) : ℚ) / mult

/-- `SubTimelineBuilder`: wraps the keyframes of an already compiled
instruction together with explicit timings and the stretch flag.  (In the
source it extends `TimelineBuilder` with `startTime = timings.delay`; only the
overridden members matter for finalization and are modelled here.) -/
structure SubTimelineBuilder where
  element : String
  keyframes : List FinalKeyframe
  preStyleProps : List String
  postStyleProps : List String
  durationT : ℚ
  delayT : ℚ
  easingT : Option String
  stretchStartingKeyframe : Bool
deriving DecidableEq, Repr

namespace SubTimelineBuilder

/-- `containsAnimation(): this.keyframes.length > 1`. -/
def containsAnimation (s : SubTimelineBuilder) : Bool := s.keyframes.length > 1

/-- `buildKeyframes()` of `SubTimelineBuilder`: when stretching with a nonzero
delay, the first keyframe is duplicated at offset `0` and at the rounded
`delay / (duration + delay)`, every later keyframe's offset `o` is warped to
`(delay + o·duration) / (duration + delay)` (rounded), and the timings become
`(duration + delay, 0)` with easing `''`.  The source reads `keyframes[0]`,
assuming at least one keyframe. -/
def buildKeyframes (s : SubTimelineBuilder) : AnimationTimelineInstruction :=
  if s.stretchStartingKeyframe ∧ s.delayT ≠ 0 then
    let duration := s.durationT
    let delay := s.delayT
    let totalTime := duration + delay
    let startingGap := jsDiv delay totalTime
    let head := s.keyframes.headD ⟨[], none⟩
    let newFirstKeyframe : FinalKeyframe := ⟨head.styles, some 0⟩
    let oldFirstKeyframe : FinalKeyframe :=
      ⟨head.styles, startingGap.map (fun g => roundOffset g 3)⟩
    let warped := (s.keyframes.drop 1).map
      (fun kf => FinalKeyframe.mk kf.styles
        (kf.offset.bind (fun o =>
          (jsDiv (delay + o * duration) totalTime).map (fun x => roundOffset x 3))))
    ⟨s.element, newFirstKeyframe :: oldFirstKeyframe :: warped, s.preStyleProps,
      s.postStyleProps, totalTime, 0, some "", true⟩
  else
    ⟨s.element, s.keyframes, s.preStyleProps, s.postStyleProps, s.durationT,
      s.delayT, s.easingT, true⟩

end SubTimelineBuilder

/- ---------------------------------------------------------------------------
Traversal context and AST visitor (the fragment exercised by the claims)
--------------------------------------------------------------------------- -/

/-- Static `AnimateTimings` as carried by a (pre-resolved) `TimingAst`. -/
structure Timing where
  duration : ℚ
  delay : ℚ
  easing : Option String
deriving DecidableEq, Repr

/-- A `StyleAst` payload. -/
structure StyleNode where
  styles : List StyleToken
  easing : Option String
  isEmptyStep : Bool
deriving DecidableEq, Repr

/-- Modelled from the spec: the AST node kinds (§3; `animation_ast.ts` is not
among the sources).  Only the fragment exercised by the claims is included:
`Style`, `Animate` with a static timing and a `Style` payload (the
`Keyframes` payload and the remaining node kinds are not needed by any
claim), and `Sequence` without per-node options (`sequence([...])` from the
DSL carries no `locals`). -/
inductive Ast where
  | style (s : StyleNode)
  | animate (timings : Timing) (styleNode : StyleNode)
  | sequence (steps : List Ast)

/-- The `previousNode` look-behind state (only `instanceof StyleAst` and
`instanceof AnimateAst` are ever tested; `DEFAULT_NOOP_PREVIOUS_NODE` is
`noop`). -/
inductive PrevNode where
  | noop
  | style
  | animate
  | sequence
deriving DecidableEq, Repr

/-- The `AnimationTimelineContext` state for the modelled fragment.  The shared
`timelines` array is represented as `previousTimelines ++ [currentTimeline]`
(the current timeline is pushed on construction and stays in the array while
being mutated; no sub-context interleaves another builder into the array in
this fragment). -/
structure AnimationTimelineContext where
  element : String
  currentTimeline : TimelineBuilder
  previousTimelines : List TimelineBuilder
  store : Store
  errors : List String
  locals : Locals
  currentAnimateTimings : Option Timing
  previousNode : PrevNode
  subContextCount : ℕ
deriving DecidableEq, Repr

namespace AnimationTimelineContext

/-- `incrementTime(time): this.currentTimeline.forwardTime(this.currentTimeline.duration + time)`. -/
def incrementTime (ctx : AnimationTimelineContext) (time : ℚ) : AnimationTimelineContext :=
  { ctx with currentTimeline :=
      ctx.currentTimeline.forwardTime (ctx.currentTimeline.duration + time) }

/-- `delayNextStep(delay)` on the context: negative delays are not yet
supported — only a strictly positive delay is forwarded to the timeline. -/
def delayNextStep (ctx : AnimationTimelineContext) (delay : ℚ) : AnimationTimelineContext :=
  if delay > 0 then
    { ctx with currentTimeline := ctx.currentTimeline.delayNextStep delay }
  else ctx

/-- `transformIntoNewTimeline(newTime?)`: the current timeline stays in the
shared array and a fork (for the same element) becomes current. -/
def transformIntoNewTimeline (ctx : AnimationTimelineContext) (newTime : ℚ) :
    AnimationTimelineContext :=
  let (tl, store) := ctx.currentTimeline.fork ctx.element newTime ctx.store
  { ctx with
      previousNode := .noop
      previousTimelines := ctx.previousTimelines ++ [ctx.currentTimeline]
      currentTimeline := tl
      store := store }

end AnimationTimelineContext

/-- `(context.currentAnimateTimings && context.currentAnimateTimings.easing) || ast.easing`. -/
def resolveStyleEasing (active : Option Timing) (astEasing : Option String) : Option String :=
  match active with
  | none => astEasing
  | some t => if jsTruthyStr t.easing then t.easing else astEasing

/-- `visitStyle` (with `_applyStyles` inlined): forward one frame when a style
directly follows a completed `animate()`, resolve the easing, and delegate to
`setStyles` with the context's locals. -/
def visitStyleNode (node : StyleNode) (ctx : AnimationTimelineContext) :
    AnimationTimelineContext :=
  let ctx :=
    if ctx.currentAnimateTimings.isNone ∧ ctx.previousNode = PrevNode.animate then
      { ctx with currentTimeline := ctx.currentTimeline.forwardFrame }
    else ctx
  let easing := resolveStyleEasing ctx.currentAnimateTimings node.easing
  let (tl, store, errors) :=
    ctx.currentTimeline.setStyles ctx.store ctx.errors node.styles easing
      node.isEmptyStep (some ctx.locals)
  { ctx with
      currentTimeline := tl
      store := store
      errors := errors
      previousNode := .style }

/-- `visitAnimate` for a static timing and a `Style` payload: activate the
timings, apply a nonzero delay (advancing time and snapshotting), advance by
the duration and visit the style. -/
def visitAnimateNode (timings : Timing) (styleNode : StyleNode)
    (ctx : AnimationTimelineContext) : AnimationTimelineContext :=
  let ctx := { ctx with currentAnimateTimings := some timings }
  let ctx :=
    if timings.delay ≠ 0 then
      let ctx := ctx.incrementTime timings.delay
      { ctx with currentTimeline := ctx.currentTimeline.snapshotCurrentStyles }
    else ctx
  let ctx := ctx.incrementTime timings.duration
  let ctx := visitStyleNode styleNode ctx
  { ctx with currentAnimateTimings := none, previousNode := .animate }

mutual

/-- The visitor dispatch (`ast.visit(this, context)`) over the modelled
fragment. -/
def visitAst : Ast → AnimationTimelineContext → AnimationTimelineContext
  | .style s, ctx => visitStyleNode s ctx
  | .animate t s, ctx => visitAnimateNode t s ctx
  | .sequence steps, ctx =>
    -- visitSequence: remember the sub-context count, flush a dangling style
    -- write, visit the steps back-to-back, and close with a fresh timeline if
    -- any step forked a sub-context
    let subContextCount := ctx.subContextCount
    let ctx :=
      if ctx.previousNode = PrevNode.style then
        let tl := ctx.currentTimeline.forwardFrame.snapshotCurrentStyles
        { ctx with currentTimeline := tl, previousNode := .noop }
      else ctx
    let ctx := visitSteps steps ctx
    let ctx :=
      if ctx.subContextCount > subContextCount then ctx.transformIntoNewTimeline 0
      else ctx
    { ctx with previousNode := .sequence }

/-- `ast.steps.forEach(s => s.visit(this, context))`. -/
def visitSteps : List Ast → AnimationTimelineContext → AnimationTimelineContext
  | [], ctx => ctx
  | a :: rest, ctx => visitSteps rest (visitAst a ctx)

end

/-- The compiler entry point
(`AnimationTimelineBuilderVisitor.buildKeyframes`, reached through
`buildAnimationTimelines`): create the root context, seed the starting
styles, visit the AST, keep only timelines that animate, append the final
styles to the last of them when permitted, and finalize every kept timeline
(or emit the empty instruction). -/
def buildAnimationTimelines (rootElement : String) (ast : Ast)
    (startingStyles finalStyles : StyleMap) (locals : Option Locals)
    (errors : List String) : List AnimationTimelineInstruction × List String :=
  let (tlb, store) := TimelineBuilder.mkBuilder rootElement 0 []
  let (tlb, store, errors) :=
    tlb.setStyles store errors [.map startingStyles] none false locals
  let ctx : AnimationTimelineContext :=
    ⟨rootElement, tlb, [], store, errors, locals.getD [], none, .noop, 0⟩
  let ctx := visitAst ast ctx
  let all := ctx.previousTimelines ++ [ctx.currentTimeline]
  let timelines := all.filter (fun t => t.containsAnimation)
  let (timelines, errors) :=
    if timelines.length ≠ 0 ∧ finalStyles.length ≠ 0 then
      match timelines.getLast? with
      | some tl =>
        if !tl.allowOnlyTimelineStyles then
          let (tl', _, errs') :=
            tl.setStyles ctx.store ctx.errors [.map finalStyles] none false locals
          (timelines.dropLast ++ [tl'], errs')
        else (timelines, ctx.errors)
      | none => (timelines, ctx.errors)
    else (timelines, ctx.errors)
  if timelines.length ≠ 0 then
    (timelines.map (fun t => t.buildKeyframes), errors)
  else
    ([⟨rootElement, [], [], [], 0, 0, some "", false⟩], errors)

/-- `Math.abs`. -/
def jsAbs (q : ℚ) : ℚ := if q < 0 then -q else q

/-- The stagger-delay computation of `visitStagger` (lines 499–519): absolute
duration times query index, with the `'reverse'` transformer (forced by a
negative authored duration) mirroring against `maxTime` and the `'full'`
transformer substituting the parent's cumulative stagger time. -/
def visitStaggerDelay (timingsDuration : ℚ) (timingsEasing : Option String)
    (queryIndex queryTotal parentStaggerTime : ℚ) : ℚ :=
  let duration := jsAbs timingsDuration
  let maxTime := duration * (queryTotal - 1)
  let delay := duration * queryIndex
  let staggerTransformer :=
    if timingsDuration < 0 then some "reverse" else timingsEasing
  if staggerTransformer = some "reverse" then maxTime - delay
  else if staggerTransformer = some "full" then parentStaggerTime
  else delay

/- ---------------------------------------------------------------------------
Operation sequences over one TimelineBuilder (used to state invariants about
arbitrary interactions with a single builder)
--------------------------------------------------------------------------- -/

/-- One call into a `TimelineBuilder`'s mutating interface. -/
inductive TLOp where
  | forwardTime (t : ℚ)
  | forwardFrame
  | delayNextStep (d : ℚ)
  | setStyles (input : List StyleToken) (easing : Option String)
      (isEmptyStep : Bool) (locals : Option Locals)
  | snapshotCurrentStyles
deriving Repr

/-- Apply one call. -/
def TimelineBuilder.applyOp (s : TimelineBuilder × Store × List String) (op : TLOp) :
    TimelineBuilder × Store × List String :=
  match s, op with
  | (t, st, e), .forwardTime time => (t.forwardTime time, st, e)
  | (t, st, e), .forwardFrame => (t.forwardFrame, st, e)
  | (t, st, e), .delayNextStep d => (t.delayNextStep d, st, e)
  | (t, st, e), .setStyles input easing isEmpty locals =>
      t.setStyles st e input easing isEmpty locals
  | (t, st, e), .snapshotCurrentStyles => (t.snapshotCurrentStyles, st, e)

/-- Run a sequence of calls against a freshly constructed builder. -/
def TimelineBuilder.runOps (element : String) (ops : List TLOp) :
    TimelineBuilder × Store × List String :=
  let (t, st) := TimelineBuilder.mkBuilder element 0 []
  ops.foldl TimelineBuilder.applyOp (t, st, [])

/-- Value of a property at one keyframe of a timeline: the keyframe's own
value, or the one inherited from the timeline's backfill. -/
def styleAt (own backFill : StyleMap) (prop : String) : Option SVal :=
  match smGet own prop with
  | some v => some v
  | none => smGet backFill prop


/- ---------------------------------------------------------------------------
Association-list lemmas
--------------------------------------------------------------------------- -/

theorem smGet_smSet_self (m : StyleMap) (k : String) (v : SVal) :
    smGet (smSet m k v) k = some v := by
  unfold smSet smGet
  split
  · next hf =>
    rw [List.find?_map]
    have hpred : ((fun p : String × SVal => p.1 == k) ∘
        (fun p => if p.1 == k then (k, v) else p)) = (fun p => p.1 == k) := by
      funext p
      by_cases h : p.1 = k
      · simp [h]
      · simp [h]
    rw [hpred]
    obtain ⟨p₀, hp₀⟩ := Option.isSome_iff_exists.mp hf
    have hpk := List.find?_some hp₀
    simp only [beq_iff_eq] at hpk
    rw [hp₀]
    simp [hpk]
  · next hf =>
    rw [List.find?_append]
    have hnone : m.find? (fun p => p.1 == k) = none :=
      Option.not_isSome_iff_eq_none.mp hf
    rw [hnone]
    simp [List.find?]

theorem smGet_smSet_ne (m : StyleMap) (k k' : String) (v : SVal) (h : k' ≠ k) :
    smGet (smSet m k v) k' = smGet m k' := by
  unfold smSet smGet
  split
  · next hf =>
    rw [List.find?_map]
    have hpred : ((fun p : String × SVal => p.1 == k') ∘
        (fun p => if p.1 == k then (k, v) else p)) = (fun p => p.1 == k') := by
      funext p
      by_cases hpk : p.1 = k
      · have hkk : ¬(k = k') := fun hx => h hx.symm
        simp [hpk, hkk]
      · simp [hpk]
    rw [hpred]
    cases hfind : m.find? (fun p => p.1 == k') with
    | none => simp
    | some p₀ =>
      have hpk' := List.find?_some hfind
      simp only [beq_iff_eq] at hpk'
      have hne : ¬(p₀.1 = k) := by
        rw [hpk']
        exact h
      simp [hne]
  · next hf =>
    rw [List.find?_append]
    cases hfind : m.find? (fun p => p.1 == k') with
    | none =>
      have hkk : ((k : String) == k') = false := by
        simp only [beq_eq_false_iff_ne, ne_eq]
        exact fun hx => h hx.symm
      simp [List.find?, hkk]
    | some p₀ => simp

theorem smGet_smSet_isSome (m : StyleMap) (k k' : String) (v : SVal) :
    (smGet (smSet m k v) k').isSome = true ↔
      (k' = k ∨ (smGet m k').isSome = true) := by
  by_cases h : k' = k
  · subst h
    simp [smGet_smSet_self]
  · rw [smGet_smSet_ne m k k' v h]
    simp [h]

/-- Monotonicity: writing one key never removes another. -/
theorem smGet_isSome_smSet (m : StyleMap) (k k' : String) (v : SVal)
    (h : (smGet m k').isSome = true) : (smGet (smSet m k v) k').isSome = true := by
  rw [smGet_smSet_isSome]
  exact Or.inr h

theorem mem_smGet_isSome (m : StyleMap) (k : String) (v : SVal)
    (h : (k, v) ∈ m) : (smGet m k).isSome = true := by
  unfold smGet
  rw [Option.isSome_map']
  rw [List.find?_isSome]
  exact ⟨(k, v), h, by simp⟩

/- ---------------------------------------------------------------------------
Claim C1
--------------------------------------------------------------------------- -/

/-- The AST of `sequence([style({opacity: 0}), animate(1000, style({opacity: 1}))])`
(the `animate(1000, ...)` timing resolves to duration 1000, delay 0, no easing). -/
def astC1 : Ast :=
  .sequence [
    .style ⟨[.map [("opacity", .num 0)]], none, false⟩,
    .animate ⟨1000, 0, none⟩ ⟨[.map [("opacity", .num 1)]], none, false⟩]

/-- C1: compiling `sequence([style({opacity:0}), animate(1000, style({opacity:1}))])`
with no variable bindings and empty starting/final styles produces exactly one
compiled instruction whose keyframes are `[{opacity:0, offset:0},
{opacity:1, offset:1}]`, with `duration = 1000` and `delay = 0` (and no
errors). -/
theorem c1_sequence_animate_scenario :
    buildAnimationTimelines "root" astC1 [] [] (some []) [] =
      ([{ element := "root"
          keyframes := [⟨[("opacity", .num 0)], some 0⟩, ⟨[("opacity", .num 1)], some 1⟩]
          preStyleProps := []
          postStyleProps := []
          duration := 1000
          delay := 0
          easing := none
          subTimeline := false }], []) := by
  decide

/- ---------------------------------------------------------------------------
Claim C2
--------------------------------------------------------------------------- -/

/-- The C2 scenario's parent timeline (element `"e"`, current time 0) and
shared style lookup. -/
def c2Parent : TimelineBuilder × Store := TimelineBuilder.mkBuilder "e" 0 []

/-- A group child forked from the parent that writes `opacity = v` at relative
time `t`. -/
def c2Child (v t : ℚ) : TimelineBuilder :=
  let (c, st) := c2Parent.1.fork "e" 0 c2Parent.2
  let c := c.forwardTime t
  (c.setStyles st [] [.map [("opacity", .num v)]] none false none).1

/-- Child A: `opacity = 0` written at relative time 5. -/
def c2ChildA : TimelineBuilder := c2Child 0 5

/-- Child B: `opacity = 1` written at relative time 10. -/
def c2ChildB : TimelineBuilder := c2Child 1 10

/-- Merging child B first and then child A (i.e. visiting B before A). -/
def c2MergeBA : TimelineBuilder :=
  ((c2Parent.1.mergeTimelineCollectedStyles c2Parent.2 c2ChildB).1.mergeTimelineCollectedStyles
    c2Parent.2 c2ChildA).1

/-- Merging child A first and then child B (i.e. visiting A before B). -/
def c2MergeAB : TimelineBuilder :=
  ((c2Parent.1.mergeTimelineCollectedStyles c2Parent.2 c2ChildA).1.mergeTimelineCollectedStyles
    c2Parent.2 c2ChildB).1

/-- C2 is false as stated: with child A writing `opacity = 0` at time 5 and
child B writing `opacity = 1` at time 10, visiting (hence merging) B first
leaves the parent's collected `opacity` at `0`, not `1` — the merge is *not*
independent of visitation order. -/
theorem c2_merge_order_counterexample :
    c2MergeBA.summaryGet "opacity" = some (0, SVal.num 0) ∧
    (SVal.num 0 : SVal) ≠ SVal.num 1 := by
  decide

/-- C2 (amended): when child A (the earlier writer) is merged first, the
parent's collected `opacity` is B's value `1` — but `_updateStyle` re-stamps
the adopted entry with the parent's own current time (0 here, not B's 10), so
a subsequently merged child whose write time exceeds the parent's recorded
time always overwrites: the rule is last-merged-wins relative to the parent's
re-stamped clock, and is order-dependent, as witnessed by the two merge
orders. -/
theorem c2_merge_order_amended :
    c2MergeAB.summaryGet "opacity" = some (0, SVal.num 1) ∧
    c2MergeBA.summaryGet "opacity" = some (0, SVal.num 0) := by
  decide

/- ---------------------------------------------------------------------------
Claim C4
--------------------------------------------------------------------------- -/

/-- The C4 scenario: a stretched sub-timeline over two keyframes with
`duration = 1000`, `delay = 1000`. -/
def c4Sub : SubTimelineBuilder :=
  ⟨"e", [⟨[("opacity", .num 0)], some 0⟩, ⟨[("opacity", .num 1)], some 1⟩],
    [], [], 1000, 1000, none, true⟩

/-- C4: finalizing the stretched 2-keyframe sub-timeline with
`duration = 1000`, `delay = 1000` yields `duration = 2000`, `delay = 0` and
the original first keyframe duplicated at offsets `0` and `0.5`; in general
every keyframe after the first is remapped to
`roundOffset ((delay + o·duration)/(duration + delay))`, and `roundOffset`
with the default precision rounds half-up to 2 decimal places. -/
theorem c4_stretch_invariants :
    (c4Sub.buildKeyframes =
      ⟨"e", [⟨[("opacity", .num 0)], some 0⟩, ⟨[("opacity", .num 0)], some (1/2)⟩,
        ⟨[("opacity", .num 1)], some 1⟩], [], [], 2000, 0, some "", true⟩) ∧
    (∀ (s : SubTimelineBuilder) (kf : FinalKeyframe) (o : ℚ),
      s.stretchStartingKeyframe = true → s.delayT ≠ 0 → s.durationT + s.delayT ≠ 0 →
      kf ∈ s.keyframes.drop 1 → kf.offset = some o →
      FinalKeyframe.mk kf.styles
          (some (roundOffset ((s.delayT + o * s.durationT) / (s.durationT + s.delayT)) 3)) ∈
        (s.buildKeyframes).keyframes) ∧
    (∀ q : ℚ, roundOffset q 3 = ((⌊q * 100 + 1/2⌋ : ℤ) : ℚ) / 100) := by
  refine ⟨by decide, ?_, ?_⟩
  · intro s kf o hs hd ht hmem hoff
    unfold SubTimelineBuilder.buildKeyframes
    rw [if_pos ⟨hs, hd⟩]
    simp only [List.mem_cons]
    refine Or.inr (Or.inr ?_)
    refine List.mem_map.mpr ⟨kf, hmem, ?_⟩
    rw [hoff]
    simp [jsDiv, ht]
  · intro q
    unfold roundOffset
    norm_num

/-- Witness for the general offset-warp part of C4 at the concrete scenario. -/
theorem c4_stretch_invariants_witness :
    FinalKeyframe.mk [("opacity", SVal.num 1)]
        (some (roundOffset ((c4Sub.delayT + 1 * c4Sub.durationT) /
          (c4Sub.durationT + c4Sub.delayT)) 3)) ∈
      (c4Sub.buildKeyframes).keyframes :=
  c4_stretch_invariants.2.1 c4Sub ⟨[("opacity", SVal.num 1)], some 1⟩ 1
    (by decide) (by decide) (by decide) (by decide) rfl

/- ---------------------------------------------------------------------------
Claim C5
--------------------------------------------------------------------------- -/

/-- C5: for a positive stagger duration `d` with neither the `'reverse'` nor
the `'full'` transformer, the `i`-th queried branch is delayed by `d·i`
(yielding `0, 100, 200, 300` for four elements with `stagger("100ms")`); an
authored negative duration `-d` forces the `'reverse'` transformer, mirroring
the delay to `d·(n-1) - d·i` (yielding `300, 200, 100, 0`). -/
theorem c5_stagger_fanout (d i n st : ℚ) (e e' : Option String)
    (hd : 0 < d) (h1 : e ≠ some "reverse") (h2 : e ≠ some "full") :
    visitStaggerDelay d e i n st = d * i ∧
    visitStaggerDelay (-d) e' i n st = d * (n - 1) - d * i ∧
    (List.range 4).map (fun k => visitStaggerDelay 100 none (k : ℚ) 4 0) =
      [0, 100, 200, 300] ∧
    (List.range 4).map (fun k => visitStaggerDelay (-100) none (k : ℚ) 4 0) =
      [300, 200, 100, 0] := by
  refine ⟨?_, ?_, by decide, by decide⟩
  · unfold visitStaggerDelay jsAbs
    rw [if_neg (not_lt.mpr hd.le), if_neg (not_lt.mpr hd.le), if_neg h1, if_neg h2]
  · unfold visitStaggerDelay jsAbs
    have hneg : -d < 0 := neg_neg_of_pos hd
    rw [if_pos hneg, if_pos hneg, if_pos rfl]
    ring

/-- Witness for C5 at `d = 100`, query index 2 of 4. -/
theorem c5_stagger_fanout_witness :
    visitStaggerDelay 100 none 2 4 0 = 100 * 2 :=
  (c5_stagger_fanout 100 2 4 0 none none (by norm_num) (by decide) (by decide)).1

/- ---------------------------------------------------------------------------
Claim C7
--------------------------------------------------------------------------- -/

/-- C7 is false as stated: a freshly constructed builder (duration 0, only the
initial keyframe at relative time 0) finalizes to a single keyframe whose
offset is the non-finite `0/0` (JS `NaN`, modelled `none`), not `0`. -/
theorem c7_zero_duration_counterexample :
    ((TimelineBuilder.mkBuilder "e" 0 []).1.buildKeyframes).keyframes.map FinalKeyframe.offset =
      [none] ∧ (none : Option ℚ) ≠ some 0 := by
  decide

/-- C7 (amended): whenever the duration is nonzero, every emitted keyframe's
offset is exactly its relative time divided by the timeline's duration (and
the styles are the keyframe's own properties flattened through the backfill);
the zero-duration timeline instead emits the non-finite offset `0/0`. -/
theorem c7_offset_formula_amended (t : TimelineBuilder) (h : t.duration ≠ 0) :
    (t.buildKeyframes).keyframes =
      t.keyframes.map (fun p =>
        FinalKeyframe.mk (protoFlatten p.2 t.backFill) (some (p.1 / t.duration))) := by
  unfold TimelineBuilder.buildKeyframes
  simp [jsDiv, h]

/-- A concrete timeline with duration 5. -/
def c7Sample : TimelineBuilder := (TimelineBuilder.mkBuilder "e" 0 []).1.forwardTime 5

/-- Witness for C7's amended offset formula. -/
theorem c7_offset_formula_witness :
    (c7Sample.buildKeyframes).keyframes =
      c7Sample.keyframes.map (fun p =>
        FinalKeyframe.mk (protoFlatten p.2 c7Sample.backFill) (some (p.1 / c7Sample.duration))) :=
  c7_offset_formula_amended c7Sample (by decide)

/- ---------------------------------------------------------------------------
Claim C8
--------------------------------------------------------------------------- -/

/-- C8: an unparsable timing string resolves to `{duration 0, delay 0, easing
''}` with exactly one "invalid" error appended; a parsable string with a
negative duration or delay returns the parsed triple and appends one
aggregate "invalid" message plus one message per negative component — unless
the allow-negative escape is set, in which case no error is appended. -/
theorem c8_timing_error_behavior :
    (∀ (s : String) (errors : List String) (allowNeg : Bool),
      parseTimingRegex s = none →
      parseTimeExpression (.str s) errors allowNeg =
        ({duration := some 0, delay := some 0, easing := ""},
          errors ++ [s!"The provided timing value \"{s}\" is invalid."])) ∧
    (∀ (s : String) (errors : List String) (m : TimingMatch),
      parseTimingRegex s = some m →
      (negQ (timingsOfMatch m).duration = true ∨ negQ (timingsOfMatch m).delay = true) →
      parseTimeExpression (.str s) errors false =
        (timingsOfMatch m,
          errors ++ [s!"The provided timing value \"{s}\" is invalid."] ++
            (if negQ (timingsOfMatch m).duration then
              ["Duration values below 0 are not allowed for this animation step."] else []) ++
            (if negQ (timingsOfMatch m).delay then
              ["Delay values below 0 are not allowed for this animation step."] else []))) ∧
    (∀ (s : String) (errors : List String) (m : TimingMatch),
      parseTimingRegex s = some m →
      parseTimeExpression (.str s) errors true = (timingsOfMatch m, errors)) := by
  refine ⟨?_, ?_, ?_⟩
  · intro s errors allowNeg h
    simp only [parseTimeExpression]
    rw [h]
  · intro s errors m h hneg
    simp only [parseTimeExpression]
    rw [h]
    have hne : ¬((if negQ (timingsOfMatch m).duration then
        ["Duration values below 0 are not allowed for this animation step."] else []) ++
        (if negQ (timingsOfMatch m).delay then
          ["Delay values below 0 are not allowed for this animation step."] else [])).isEmpty
          = true := by
      rcases hneg with hneg | hneg <;> simp [hneg]
    simp only [Bool.not_false, if_true, hne, if_false]
    simp [List.append_assoc]
  · intro s errors m h
    simp only [parseTimeExpression]
    rw [h]
    simp

/-- Witness for C8 at the unparsable string `"abc"` and the negative-duration
string `"-5s"` (both error modes), plus the allow-negative escape. -/
theorem c8_timing_error_behavior_witness :
    (parseTimeExpression (.str "abc") [] false =
      ({duration := some 0, delay := some 0, easing := ""},
        [] ++ [s!"The provided timing value \"abc\" is invalid."])) ∧
    (parseTimeExpression (.str "-5s") [] false =
      (timingsOfMatch ⟨"-5", "s", none, none⟩,
        [] ++ [s!"The provided timing value \"-5s\" is invalid."] ++
          (if negQ (timingsOfMatch ⟨"-5", "s", none, none⟩).duration then
            ["Duration values below 0 are not allowed for this animation step."] else []) ++
          (if negQ (timingsOfMatch ⟨"-5", "s", none, none⟩).delay then
            ["Delay values below 0 are not allowed for this animation step."] else []))) ∧
    (parseTimeExpression (.str "-5s") [] true =
      (timingsOfMatch ⟨"-5", "s", none, none⟩, [])) :=
  ⟨c8_timing_error_behavior.1 "abc" [] false (by decide),
   c8_timing_error_behavior.2.1 "-5s" [] ⟨"-5", "s", none, none⟩ (by decide)
     (Or.inl (by decide)),
   c8_timing_error_behavior.2.2 "-5s" [] ⟨"-5", "s", none, none⟩ (by decide)⟩

/- ---------------------------------------------------------------------------
Claim C9
--------------------------------------------------------------------------- -/

/-- C9: for every delay `d ≤ 0`, `delayNextStep` on the traversal context is a
no-op — the current timeline (start time, duration, keyframes) and the error
list are left entirely unchanged, with no error recorded. -/
theorem c9_negative_delay_ignored (ctx : AnimationTimelineContext) (d : ℚ)
    (h : d ≤ 0) : ctx.delayNextStep d = ctx := by
  unfold AnimationTimelineContext.delayNextStep
  rw [if_neg (not_lt.mpr h)]

/-- A concrete traversal context. -/
def c9Ctx : AnimationTimelineContext :=
  ⟨"root", (TimelineBuilder.mkBuilder "root" 0 []).1, [], (TimelineBuilder.mkBuilder "root" 0 []).2,
    [], [], none, .noop, 0⟩

/-- Witness for C9 at `d = -5`. -/
theorem c9_negative_delay_ignored_witness : c9Ctx.delayNextStep (-5) = c9Ctx :=
  c9_negative_delay_ignored c9Ctx (-5) (by norm_num)

/- ---------------------------------------------------------------------------
Claim C10
--------------------------------------------------------------------------- -/

/-- C10: in a successfully matched timing string the delay's numeric part is
floored before unit conversion while the duration's is not: `"1s 0.5s"`
resolves to delay `0` (not `500`), whereas `"0.5s"` alone resolves to
duration `500`; in general the delay is
`convert (⌊parseFloat dn⌋) unit` and the duration `convert (parseFloat n) unit`. -/
theorem c10_delay_floor_semantics :
    ((parseTimeExpression (.str "1s 0.5s") [] false).1 =
      {duration := some 1000, delay := some 0, easing := ""}) ∧
    ((parseTimeExpression (.str "0.5s") [] false).1.duration = some 500) ∧
    (∀ (m : TimingMatch) (dn du : String), m.delayPart = some (dn, du) →
      (timingsOfMatch m).delay =
        (parseFloatQ dn).map (fun v => _convertTimeValueToMS (⌊v⌋ : ℚ) du)) ∧
    (∀ m : TimingMatch,
      (timingsOfMatch m).duration =
        (parseFloatQ m.durNum).map (fun v => _convertTimeValueToMS v m.durUnit)) := by
  refine ⟨by decide, by decide, ?_, fun m => rfl⟩
  intro m dn du h
  unfold timingsOfMatch
  rw [h]

/-- Witness for C10's general floor rule at the match of `"1s 0.5s"`. -/
theorem c10_delay_floor_semantics_witness :
    (timingsOfMatch ⟨"1", "s", some ("0.5", "s"), none⟩).delay =
      (parseFloatQ "0.5").map (fun v => _convertTimeValueToMS (⌊v⌋ : ℚ) "s") :=
  c10_delay_floor_semantics.2.2.1 ⟨"1", "s", some ("0.5", "s"), none⟩ "0.5" "s" rfl

/- ---------------------------------------------------------------------------
TimelineBuilder structural lemmas
--------------------------------------------------------------------------- -/

namespace TimelineBuilder

theorem updateCurrentKF_currentKF (t : TimelineBuilder) (f : StyleMap → StyleMap) :
    (t.updateCurrentKF f).currentKF = f t.currentKF := by
  unfold updateCurrentKF currentKF
  split
  · next hf =>
    simp only [List.find?_map]
    have hpred : ((fun p : ℚ × StyleMap => decide (p.1 = t.duration)) ∘
        (fun p => if p.1 = t.duration then (p.1, f p.2) else p)) =
        (fun p : ℚ × StyleMap => decide (p.1 = t.duration)) := by
      funext p
      by_cases h : p.1 = t.duration <;> simp [h]
    rw [hpred]
    obtain ⟨p₀, hp₀⟩ := Option.isSome_iff_exists.mp hf
    have hpk : p₀.1 = t.duration := by simpa using List.find?_some hp₀
    rw [hp₀]
    simp [hpk]
  · next hf =>
    have hnone : t.keyframes.find? (fun p => decide (p.1 = t.duration)) = none :=
      Option.not_isSome_iff_eq_none.mp hf
    simp only [List.find?_append, hnone]
    simp [List.find?]

theorem updateCurrentKF_duration (t : TimelineBuilder) (f : StyleMap → StyleMap) :
    (t.updateCurrentKF f).duration = t.duration := by
  unfold updateCurrentKF
  split <;> rfl

theorem updateCurrentKF_emptyStepKF (t : TimelineBuilder) (f : StyleMap → StyleMap) :
    (t.updateCurrentKF f).emptyStepKF = t.emptyStepKF := by
  unfold updateCurrentKF
  split <;> rfl

theorem updateCurrentKF_backFill (t : TimelineBuilder) (f : StyleMap → StyleMap) :
    (t.updateCurrentKF f).backFill = t.backFill := by
  unfold updateCurrentKF
  split <;> rfl

theorem updateCurrentKF_localOwn (t : TimelineBuilder) (f : StyleMap → StyleMap) :
    (t.updateCurrentKF f).localOwn = t.localOwn := by
  unfold updateCurrentKF
  split <;> rfl

theorem updateStyle_keyframes (t : TimelineBuilder) (store : Store) (prop : String)
    (v : SVal) : (t.updateStyle store prop v).1.keyframes = t.keyframes := by
  unfold updateStyle
  split <;> rfl

theorem updateStyle_duration (t : TimelineBuilder) (store : Store) (prop : String)
    (v : SVal) : (t.updateStyle store prop v).1.duration = t.duration := by
  unfold updateStyle
  split <;> rfl

theorem updateStyle_emptyStepKF (t : TimelineBuilder) (store : Store) (prop : String)
    (v : SVal) : (t.updateStyle store prop v).1.emptyStepKF = t.emptyStepKF := by
  unfold updateStyle
  split <;> rfl

theorem updateStyle_backFill (t : TimelineBuilder) (store : Store) (prop : String)
    (v : SVal) : (t.updateStyle store prop v).1.backFill = t.backFill := by
  unfold updateStyle
  split <;> rfl

/-- `currentKF` only reads `keyframes` and `duration`. -/
theorem currentKF_congr (t t' : TimelineBuilder) (hk : t'.keyframes = t.keyframes)
    (hd : t'.duration = t.duration) : t'.currentKF = t.currentKF := by
  unfold currentKF
  rw [hk, hd]

end TimelineBuilder

namespace TimelineBuilder

theorem applyStyleEntry_currentKF (locals : Option Locals)
    (s : TimelineBuilder × Store × List String) (prop : String) (v0 : SVal) :
    ((applyStyleEntry locals s (prop, v0)).1).currentKF =
      smSet s.1.currentKF prop
        ((match locals with
          | some l => interpolateLocals v0 l s.2.2
          | none => (v0, s.2.2)).1) := by
  obtain ⟨t, st, errs⟩ := s
  unfold applyStyleEntry
  cases locals <;>
    · simp only []
      split <;>
        exact (currentKF_congr _ _ (updateStyle_keyframes _ _ _ _)
            (updateStyle_duration _ _ _ _)).trans
          ((currentKF_congr _ _ rfl rfl).trans (updateCurrentKF_currentKF t _))

end TimelineBuilder

namespace TimelineBuilder

theorem applyStyleEntry_duration (locals : Option Locals)
    (s : TimelineBuilder × Store × List String) (e : String × SVal) :
    ((applyStyleEntry locals s e).1).duration = s.1.duration := by
  obtain ⟨t, st, errs⟩ := s
  obtain ⟨prop, v0⟩ := e
  unfold applyStyleEntry
  cases locals <;>
    · simp only []
      split <;>
        exact (updateStyle_duration _ _ _ _).trans (updateCurrentKF_duration t _)

theorem applyStyleEntry_emptyStepKF (locals : Option Locals)
    (s : TimelineBuilder × Store × List String) (e : String × SVal) :
    ((applyStyleEntry locals s e).1).emptyStepKF = s.1.emptyStepKF := by
  obtain ⟨t, st, errs⟩ := s
  obtain ⟨prop, v0⟩ := e
  unfold applyStyleEntry
  cases locals <;>
    · simp only []
      split <;>
        exact (updateStyle_emptyStepKF _ _ _ _).trans (updateCurrentKF_emptyStepKF t _)

theorem copyLocalEntry_duration (t : TimelineBuilder) (e : String × SVal) :
    (t.copyLocalEntry e).duration = t.duration := by
  unfold copyLocalEntry
  split
  · rfl
  · exact updateCurrentKF_duration t _

theorem copyLocalEntry_emptyStepKF (t : TimelineBuilder) (e : String × SVal) :
    (t.copyLocalEntry e).emptyStepKF = t.emptyStepKF := by
  unfold copyLocalEntry
  split
  · rfl
  · exact updateCurrentKF_emptyStepKF t _

/-- The closing copy loop of `setStyles` never overwrites a property already
present on the current keyframe. -/
theorem copyLocal_foldl_currentKF (L : List (String × SVal)) (t : TimelineBuilder)
    (p : String) (h : (smGet t.currentKF p).isSome = true) :
    smGet ((L.foldl copyLocalEntry t).currentKF) p = smGet t.currentKF p := by
  induction L generalizing t with
  | nil => rfl
  | cons e rest ih =>
    obtain ⟨q, w⟩ := e
    have hstep : smGet ((t.copyLocalEntry (q, w)).currentKF) p = smGet t.currentKF p := by
      unfold copyLocalEntry
      split
      · rfl
      · next hq =>
        rw [updateCurrentKF_currentKF]
        have hqp : p ≠ q := by
          intro hx
          rw [hx] at h
          exact hq h
        exact smGet_smSet_ne _ q p w hqp
    have hsome : (smGet ((t.copyLocalEntry (q, w)).currentKF) p).isSome = true := by
      rw [hstep]
      exact h
    simp only [List.foldl_cons]
    rw [ih _ hsome, hstep]

theorem foldl_copyLocalEntry_duration (L : List (String × SVal)) (t : TimelineBuilder) :
    (L.foldl copyLocalEntry t).duration = t.duration := by
  induction L generalizing t with
  | nil => rfl
  | cons e rest ih =>
    simp only [List.foldl_cons]
    rw [ih, copyLocalEntry_duration]

theorem foldl_copyLocalEntry_emptyStepKF (L : List (String × SVal)) (t : TimelineBuilder) :
    (L.foldl copyLocalEntry t).emptyStepKF = t.emptyStepKF := by
  induction L generalizing t with
  | nil => rfl
  | cons e rest ih =>
    simp only [List.foldl_cons]
    rw [ih, copyLocalEntry_emptyStepKF]

end TimelineBuilder

namespace TimelineBuilder

theorem foldl_applyStyleEntry_duration (locals : Option Locals)
    (L : List (String × SVal)) (s : TimelineBuilder × Store × List String) :
    ((L.foldl (applyStyleEntry locals) s).1).duration = s.1.duration := by
  induction L generalizing s with
  | nil => rfl
  | cons e rest ih =>
    simp only [List.foldl_cons]
    rw [ih, applyStyleEntry_duration]

theorem foldl_applyStyleEntry_emptyStepKF (locals : Option Locals)
    (L : List (String × SVal)) (s : TimelineBuilder × Store × List String) :
    ((L.foldl (applyStyleEntry locals) s).1).emptyStepKF = s.1.emptyStepKF := by
  induction L generalizing s with
  | nil => rfl
  | cons e rest ih =>
    simp only [List.foldl_cons]
    rw [ih, applyStyleEntry_emptyStepKF]

/-- A `setStyles` call with no easing, no locals and a single one-property
style token writes that property's value into the current keyframe. -/
theorem setStyles_single_currentKF (t : TimelineBuilder) (store : Store)
    (errors : List String) (p : String) (v : SVal) :
    smGet ((t.setStyles store errors [.map [(p, v)]] none false none).1).currentKF p =
      some v := by
  unfold setStyles
  simp only [jsTruthyStr, Bool.false_eq_true, if_false]
  have hflat : flattenStyles [.map [(p, v)]] (t.globalStyles store) = [(p, v)] := rfl
  rw [hflat]
  simp only [List.foldl_cons, List.foldl_nil]
  rw [copyLocal_foldl_currentKF]
  · rw [applyStyleEntry_currentKF]
    exact smGet_smSet_self _ _ _
  · rw [applyStyleEntry_currentKF]
    rw [smGet_smSet_self]
    rfl

/-- A non-empty-step `setStyles` call with no easing leaves the empty-step
designation and the cursor position unchanged. -/
theorem setStyles_false_allowOnly (t : TimelineBuilder) (store : Store)
    (errors : List String) (input : List StyleToken) (locals : Option Locals) :
    ((t.setStyles store errors input none false locals).1).allowOnlyTimelineStyles =
      t.allowOnlyTimelineStyles := by
  unfold setStyles
  simp only [jsTruthyStr, Bool.false_eq_true, if_false]
  unfold allowOnlyTimelineStyles
  rw [foldl_copyLocalEntry_emptyStepKF, foldl_copyLocalEntry_duration,
    foldl_applyStyleEntry_emptyStepKF, foldl_applyStyleEntry_duration]

/-- An empty-step `setStyles` leaves the current keyframe designated as the
empty-step keyframe. -/
theorem setStylesEmptyStep_allowOnly (t : TimelineBuilder) (store : Store) :
    (t.setStylesEmptyStep store).allowOnlyTimelineStyles = false := by
  unfold setStylesEmptyStep allowOnlyTimelineStyles
  simp

end TimelineBuilder

/- ---------------------------------------------------------------------------
Claim C6
--------------------------------------------------------------------------- -/

/-- C6: after a `setStyles` call with `isEmptyStep = true` marks the current
keyframe as the empty-step keyframe, a subsequent `setStyles` call with an
explicit style for a (different) property at that same keyframe succeeds —
the value is written into the keyframe — and, the cursor still being on that
keyframe, `allowOnlyTimelineStyles()` returns `false`. -/
theorem c6_empty_step_exclusivity (t0 : TimelineBuilder) (store : Store)
    (errors : List String) (input : List StyleToken) (p : String) (v : SVal) :
    smGet (((t0.setStyles store errors input none true none).1.setStyles store errors
        [.map [(p, v)]] none false none).1).currentKF p = some v ∧
    (((t0.setStyles store errors input none true none).1.setStyles store errors
        [.map [(p, v)]] none false none).1).allowOnlyTimelineStyles = false := by
  have h1 : (t0.setStyles store errors input none true none).1 =
      t0.setStylesEmptyStep store := rfl
  constructor
  · exact TimelineBuilder.setStyles_single_currentKF _ _ _ _ _
  · rw [TimelineBuilder.setStyles_false_allowOnly, h1]
    exact TimelineBuilder.setStylesEmptyStep_allowOnly t0 store

/- ---------------------------------------------------------------------------
Claim C3: the backfill invariant
--------------------------------------------------------------------------- -/

/-- Keys introduced by folding style entries into a map come from the map or
from the folded list. -/
theorem smGet_foldl_smSet_isSome (L : List (String × SVal)) (m : StyleMap) (q : String)
    (h : (smGet (L.foldl (fun acc p => smSet acc p.1 p.2) m) q).isSome = true) :
    (smGet m q).isSome = true ∨ ∃ w, (q, w) ∈ L := by
  induction L generalizing m with
  | nil => exact Or.inl h
  | cons e rest ih =>
    simp only [List.foldl_cons] at h
    rcases ih _ h with h' | ⟨w, hw⟩
    · rcases (smGet_smSet_isSome m e.1 q e.2).mp h' with rfl | h''
      · exact Or.inr ⟨e.2, by simp⟩
      · exact Or.inl h''
    · exact Or.inr ⟨w, by simp [hw]⟩

/-- If a style value is not JS-falsy it is in particular present. -/
theorem jsFalsy_false_isSome (o : Option SVal) (h : jsFalsy o = false) :
    o.isSome = true := by
  cases o with
  | none => simp [jsFalsy] at h
  | some v => rfl

namespace TimelineBuilder

/-- The backfill invariant of one timeline builder:
every property of the accumulated local style state, and every non-`easing`
property appearing on any keyframe, is covered by the backfill map. -/
def GoodTLB (t : TimelineBuilder) : Prop :=
  (∀ p, (smGet t.localOwn p).isSome = true → (smGet t.backFill p).isSome = true) ∧
  (∀ tk ∈ t.keyframes, ∀ p, p ≠ "easing" → (smGet tk.2 p).isSome = true →
    (smGet t.backFill p).isSome = true)

theorem mem_updateCurrentKF (t : TimelineBuilder) (f : StyleMap → StyleMap)
    (tk : ℚ × StyleMap) (h : tk ∈ (t.updateCurrentKF f).keyframes) :
    (∃ tk0 ∈ t.keyframes, tk.2 = tk0.2 ∨ tk.2 = f tk0.2) ∨ tk.2 = f [] := by
  unfold updateCurrentKF at h
  split at h
  · simp only [List.mem_map] at h
    obtain ⟨tk0, htk0, heq⟩ := h
    by_cases hd : tk0.1 = t.duration
    · rw [if_pos hd] at heq
      exact Or.inl ⟨tk0, htk0, Or.inr (by rw [← heq])⟩
    · rw [if_neg hd] at heq
      exact Or.inl ⟨tk0, htk0, Or.inl (by rw [← heq])⟩
  · simp only [List.mem_append, List.mem_singleton] at h
    rcases h with h | h
    · exact Or.inl ⟨tk, h, Or.inl rfl⟩
    · exact Or.inr (by rw [h])

theorem mem_updatePrevKF (t : TimelineBuilder) (f : StyleMap → StyleMap)
    (tk : ℚ × StyleMap) (h : tk ∈ (t.updatePrevKF f).keyframes) :
    ∃ tk0 ∈ t.keyframes, tk.2 = tk0.2 ∨ tk.2 = f tk0.2 := by
  unfold updatePrevKF at h
  split at h
  · exact ⟨tk, h, Or.inl rfl⟩
  · rename_i pt0 heq0
    simp only [List.mem_map] at h
    obtain ⟨tk0, htk0, heq⟩ := h
    by_cases hd : tk0.1 = pt0
    · rw [if_pos hd] at heq
      exact ⟨tk0, htk0, Or.inr (by rw [← heq])⟩
    · rw [if_neg hd] at heq
      exact ⟨tk0, htk0, Or.inl (by rw [← heq])⟩

/-- Generic preservation of the invariant by a current-keyframe update whose
new keys are already covered by the backfill. -/
theorem good_updateCurrentKF (t : TimelineBuilder) (f : StyleMap → StyleMap)
    (hf : ∀ (m : StyleMap) (q : String), q ≠ "easing" →
      (smGet (f m) q).isSome = true →
      (smGet m q).isSome = true ∨ (smGet t.backFill q).isSome = true)
    (hG : GoodTLB t) : GoodTLB (t.updateCurrentKF f) := by
  constructor
  · intro p hp
    rw [updateCurrentKF_localOwn] at hp
    rw [updateCurrentKF_backFill]
    exact hG.1 p hp
  · intro tk htk p hpe hp
    rw [updateCurrentKF_backFill]
    rcases mem_updateCurrentKF t f tk htk with ⟨tk0, htk0, heq | heq⟩ | heq
    · exact hG.2 tk0 htk0 p hpe (heq ▸ hp)
    · rcases hf tk0.2 p hpe (heq ▸ hp) with h' | h'
      · exact hG.2 tk0 htk0 p hpe h'
      · exact h'
    · rcases hf [] p hpe (heq ▸ hp) with h' | h'
      · simp [smGet, List.find?] at h'
      · exact h'

theorem good_mk (e : String) (startTime : ℚ) (store : Store) :
    GoodTLB (mkBuilder e startTime store).1 := by
  constructor
  · intro p hp
    simp [mkBuilder, smGet, List.find?] at hp
  · intro tk htk p hpe hp
    simp [mkBuilder] at htk
    rw [htk] at hp
    simp [smGet, List.find?] at hp

theorem good_loadKeyframe (t : TimelineBuilder) (pt : ℚ) (hG : GoodTLB t) :
    GoodTLB (t.loadKeyframe pt) := by
  unfold loadKeyframe
  dsimp only
  split
  · exact hG
  · constructor
    · exact hG.1
    · intro tk htk p hpe hp
      simp only [List.mem_append, List.mem_singleton] at htk
      rcases htk with htk | htk
      · exact hG.2 tk htk p hpe hp
      · rw [htk] at hp
        simp [smGet, List.find?] at hp

theorem good_forwardTime (t : TimelineBuilder) (time : ℚ) (hG : GoodTLB t) :
    GoodTLB (t.forwardTime time) := by
  unfold forwardTime
  apply good_loadKeyframe
  exact ⟨hG.1, hG.2⟩

theorem good_forwardFrame (t : TimelineBuilder) (hG : GoodTLB t) :
    GoodTLB t.forwardFrame := by
  unfold forwardFrame
  apply good_loadKeyframe
  exact ⟨hG.1, hG.2⟩

theorem good_delayNextStep (t : TimelineBuilder) (d : ℚ) (hG : GoodTLB t) :
    GoodTLB (t.delayNextStep d) := by
  unfold delayNextStep
  split
  · exact ⟨hG.1, hG.2⟩
  · exact good_forwardTime _ _ hG

theorem good_snapshotCurrentStyles (t : TimelineBuilder) (hG : GoodTLB t) :
    GoodTLB t.snapshotCurrentStyles := by
  unfold snapshotCurrentStyles
  apply good_updateCurrentKF _ _ _ hG
  intro m q _ hq
  rcases smGet_foldl_smSet_isSome t.localOwn m q hq with h | ⟨w, hw⟩
  · exact Or.inl h
  · exact Or.inr (hG.1 q (mem_smGet_isSome _ _ _ hw))

end TimelineBuilder

namespace TimelineBuilder

theorem updateStyle_localOwn (t : TimelineBuilder) (store : Store) (prop : String)
    (v : SVal) :
    (t.updateStyle store prop v).1.localOwn =
      if prop = "easing" then t.localOwn else smSet t.localOwn prop v := by
  unfold updateStyle
  split
  · rfl
  · rfl

/-- Invariant preservation for the common tail of one `setStyles` style entry:
an `_updateStyle` call on a builder whose current keyframe was extended with
`prop` and whose backfill already covers `prop`. -/
theorem good_combined (t : TimelineBuilder) (st : Store) (prop : String) (v v' : SVal)
    (T2 : TimelineBuilder)
    (hkf : T2.keyframes = (t.updateCurrentKF (fun kf => smSet kf prop v')).keyframes)
    (hlo : T2.localOwn = t.localOwn)
    (hkey : (smGet T2.backFill prop).isSome = true)
    (hmono : ∀ q, (smGet t.backFill q).isSome = true → (smGet T2.backFill q).isSome = true)
    (hG : GoodTLB t) :
    GoodTLB ((T2.updateStyle st prop v).1) := by
  constructor
  · intro q hq
    rw [updateStyle_localOwn] at hq
    rw [updateStyle_backFill]
    by_cases hpe : prop = "easing"
    · rw [if_pos hpe, hlo] at hq
      exact hmono q (hG.1 q hq)
    · rw [if_neg hpe] at hq
      rcases (smGet_smSet_isSome T2.localOwn prop q v).mp hq with rfl | hq'
      · exact hkey
      · rw [hlo] at hq'
        exact hmono q (hG.1 q hq')
  · intro tk htk q hqe hq
    rw [updateStyle_keyframes, hkf] at htk
    rw [updateStyle_backFill]
    rcases mem_updateCurrentKF t _ tk htk with ⟨tk0, htk0, heq | heq⟩ | heq
    · exact hmono q (hG.2 tk0 htk0 q hqe (heq ▸ hq))
    · rw [heq] at hq
      rcases (smGet_smSet_isSome tk0.2 prop q v').mp hq with rfl | hq'
      · exact hkey
      · exact hmono q (hG.2 tk0 htk0 q hqe hq')
    · rw [heq] at hq
      rcases (smGet_smSet_isSome [] prop q v').mp hq with rfl | hq'
      · exact hkey
      · simp [smGet, List.find?] at hq'

/-- Invariant preservation for the body of one style entry, with the
interpolated value abstracted. -/
theorem good_applyCore (t : TimelineBuilder) (st : Store) (prop : String) (v : SVal)
    (hG : GoodTLB t) :
    GoodTLB (((if jsFalsy ((t.updateCurrentKF (fun kf =>
          smSet kf prop v)).localStyleGet prop) = true
        then { t.updateCurrentKF (fun kf => smSet kf prop v) with
            backFill := smSet (t.updateCurrentKF (fun kf => smSet kf prop v)).backFill prop
              (backFillLookup ((t.updateCurrentKF (fun kf =>
                smSet kf prop v)).globalStyles st) prop) }
        else t.updateCurrentKF (fun kf => smSet kf prop v)).updateStyle st prop v).1) := by
  by_cases hf : jsFalsy ((t.updateCurrentKF (fun kf =>
      smSet kf prop v)).localStyleGet prop) = true
  · rw [if_pos hf]
    refine good_combined t st prop v v _ rfl (updateCurrentKF_localOwn t _) ?_ ?_ hG
    · show (smGet (smSet (t.updateCurrentKF (fun kf => smSet kf prop v)).backFill prop
        (backFillLookup ((t.updateCurrentKF (fun kf =>
          smSet kf prop v)).globalStyles st) prop)) prop).isSome = true
      rw [smGet_smSet_self]
      rfl
    · intro q hq
      show (smGet (smSet (t.updateCurrentKF (fun kf => smSet kf prop v)).backFill prop
        (backFillLookup ((t.updateCurrentKF (fun kf =>
          smSet kf prop v)).globalStyles st) prop)) q).isSome = true
      rw [updateCurrentKF_backFill]
      exact smGet_isSome_smSet t.backFill prop q _ hq
  · rw [if_neg hf]
    refine good_combined t st prop v v _ rfl (updateCurrentKF_localOwn t _) ?_ ?_ hG
    · have hsome : ((t.updateCurrentKF (fun kf =>
          smSet kf prop v)).localStyleGet prop).isSome = true := by
        refine jsFalsy_false_isSome _ ?_
        revert hf
        cases jsFalsy ((t.updateCurrentKF (fun kf => smSet kf prop v)).localStyleGet prop) <;>
          simp
      unfold localStyleGet at hsome
      rw [updateCurrentKF_localOwn, updateCurrentKF_backFill] at hsome
      show (smGet (t.updateCurrentKF (fun kf => smSet kf prop v)).backFill prop).isSome = true
      rw [updateCurrentKF_backFill]
      cases hcase : smGet t.localOwn prop with
      | some w =>
        refine hG.1 prop ?_
        rw [hcase]
        rfl
      | none =>
        rw [hcase] at hsome
        exact hsome
    · intro q hq
      show (smGet (t.updateCurrentKF (fun kf => smSet kf prop v)).backFill q).isSome = true
      rw [updateCurrentKF_backFill]
      exact hq

theorem good_applyStyleEntry (locals : Option Locals)
    (s : TimelineBuilder × Store × List String) (e : String × SVal)
    (hG : GoodTLB s.1) : GoodTLB ((applyStyleEntry locals s e).1) := by
  obtain ⟨t, st, errs⟩ := s
  obtain ⟨prop, v0⟩ := e
  cases locals with
  | none => exact good_applyCore t st prop v0 hG
  | some l => exact good_applyCore t st prop (interpolateLocals v0 l errs).1 hG

end TimelineBuilder

namespace TimelineBuilder

theorem updatePrevKF_localOwn (t : TimelineBuilder) (f : StyleMap → StyleMap) :
    (t.updatePrevKF f).localOwn = t.localOwn := by
  unfold updatePrevKF
  split <;> rfl

theorem updatePrevKF_backFill (t : TimelineBuilder) (f : StyleMap → StyleMap) :
    (t.updatePrevKF f).backFill = t.backFill := by
  unfold updatePrevKF
  split <;> rfl

theorem good_emptyStepEntry (acc : TimelineBuilder) (e : String × SVal)
    (hG : GoodTLB acc) : GoodTLB (acc.emptyStepEntry e) := by
  unfold emptyStepEntry
  dsimp only
  have hacc' : GoodTLB { acc with backFill := smSet acc.backFill e.1 (if jsFalsy (some e.2) = true then AUTO_STYLE else e.2) } := by
    constructor
    · intro p hp
      exact smGet_isSome_smSet _ _ _ _ (hG.1 p hp)
    · intro tk htk p hpe hp
      exact smGet_isSome_smSet _ _ _ _ (hG.2 tk htk p hpe hp)
  apply good_updateCurrentKF _ _ _ hacc'
  intro m q _ hq
  rcases (smGet_smSet_isSome m e.1 q AUTO_STYLE).mp hq with rfl | h'
  · refine Or.inr ?_
    show (smGet (smSet acc.backFill e.1
      (if jsFalsy (some e.2) = true then AUTO_STYLE else e.2)) e.1).isSome = true
    rw [smGet_smSet_self]
    rfl
  · exact Or.inl h'

theorem good_setStylesEmptyStep (t : TimelineBuilder) (store : Store)
    (hG : GoodTLB t) : GoodTLB (t.setStylesEmptyStep store) := by
  have hfold : ∀ (L : List (String × SVal)) (acc : TimelineBuilder), GoodTLB acc →
      GoodTLB (L.foldl emptyStepEntry acc) := by
    intro L
    induction L with
    | nil => exact fun acc h => h
    | cons e rest ih =>
      intro acc hacc
      simp only [List.foldl_cons]
      exact ih _ (good_emptyStepEntry acc e hacc)
  have h := hfold (t.globalStyles store) t hG
  exact ⟨h.1, h.2⟩

theorem good_foldl_applyStyleEntry (locals : Option Locals)
    (L : List (String × SVal)) (s : TimelineBuilder × Store × List String)
    (hG : GoodTLB s.1) : GoodTLB ((L.foldl (applyStyleEntry locals) s).1) := by
  induction L generalizing s with
  | nil => exact hG
  | cons e rest ih =>
    simp only [List.foldl_cons]
    exact ih _ (good_applyStyleEntry locals s e hG)

theorem copyLocalEntry_backFill (t : TimelineBuilder) (e : String × SVal) :
    (t.copyLocalEntry e).backFill = t.backFill := by
  unfold copyLocalEntry
  split
  · rfl
  · exact updateCurrentKF_backFill t _

theorem good_copyLocalEntry (t : TimelineBuilder) (e : String × SVal)
    (hbf : (smGet t.backFill e.1).isSome = true) (hG : GoodTLB t) :
    GoodTLB (t.copyLocalEntry e) := by
  unfold copyLocalEntry
  split
  · exact hG
  · apply good_updateCurrentKF _ _ _ hG
    intro m q _ hq
    rcases (smGet_smSet_isSome m e.1 q e.2).mp hq with rfl | h'
    · exact Or.inr hbf
    · exact Or.inl h'

theorem good_foldl_copyLocalEntry (L : List (String × SVal)) (t : TimelineBuilder)
    (hG : GoodTLB t) (hL : ∀ p ∈ L, (smGet t.backFill p.1).isSome = true) :
    GoodTLB (L.foldl copyLocalEntry t) := by
  induction L generalizing t with
  | nil => exact hG
  | cons e rest ih =>
    simp only [List.foldl_cons]
    refine ih _ (good_copyLocalEntry t e (hL e (by simp)) hG) ?_
    intro p hp
    rw [copyLocalEntry_backFill]
    exact hL p (by simp [hp])

theorem good_updatePrevKF_easing (t : TimelineBuilder) (v : SVal) (hG : GoodTLB t) :
    GoodTLB (t.updatePrevKF (fun kf => smSet kf "easing" v)) := by
  constructor
  · intro p hp
    rw [updatePrevKF_localOwn] at hp
    rw [updatePrevKF_backFill]
    exact hG.1 p hp
  · intro tk htk p hpe hp
    rw [updatePrevKF_backFill]
    rcases mem_updatePrevKF t _ tk htk with ⟨tk0, htk0, heq | heq⟩
    · exact hG.2 tk0 htk0 p hpe (heq ▸ hp)
    · rw [heq] at hp
      rcases (smGet_smSet_isSome tk0.2 "easing" p v).mp hp with rfl | h'
      · exact absurd rfl hpe
      · exact hG.2 tk0 htk0 p hpe h'

theorem good_setStyles (t : TimelineBuilder) (store : Store) (errors : List String)
    (input : List StyleToken) (easing : Option String) (emptyStep : Bool)
    (locals : Option Locals) (hG : GoodTLB t) :
    GoodTLB ((t.setStyles store errors input easing emptyStep locals).1) := by
  unfold setStyles
  dsimp only
  have hG1 : GoodTLB (if jsTruthyStr easing = true then
      t.updatePrevKF (fun kf => smSet kf "easing" (.str (easing.getD ""))) else t) := by
    split
    · exact good_updatePrevKF_easing t _ hG
    · exact hG
  split
  · exact good_setStylesEmptyStep _ store hG1
  · have hmid := good_foldl_applyStyleEntry locals
      (flattenStyles input ((if jsTruthyStr easing = true then
        t.updatePrevKF (fun kf => smSet kf "easing" (.str (easing.getD ""))) else
        t).globalStyles store))
      ((if jsTruthyStr easing = true then
        t.updatePrevKF (fun kf => smSet kf "easing" (.str (easing.getD ""))) else t),
        store, errors) hG1
    refine good_foldl_copyLocalEntry _ _ hmid ?_
    intro p hp
    exact hmid.1 p.1 (mem_smGet_isSome _ _ _ hp)

end TimelineBuilder

namespace TimelineBuilder

theorem good_applyOp (s : TimelineBuilder × Store × List String) (op : TLOp)
    (hG : GoodTLB s.1) : GoodTLB ((applyOp s op).1) := by
  obtain ⟨t, st, errs⟩ := s
  cases op with
  | forwardTime time => exact good_forwardTime t time hG
  | forwardFrame => exact good_forwardFrame t hG
  | delayNextStep d => exact good_delayNextStep t d hG
  | setStyles input easing isEmpty locals =>
    exact good_setStyles t st errs input easing isEmpty locals hG
  | snapshotCurrentStyles => exact good_snapshotCurrentStyles t hG

/-- The backfill invariant holds after any sequence of calls against a fresh
builder. -/
theorem runOps_good (e : String) (ops : List TLOp) : GoodTLB ((runOps e ops).1) := by
  unfold runOps
  dsimp only
  have hfold : ∀ (L : List TLOp) (s : TimelineBuilder × Store × List String),
      GoodTLB s.1 → GoodTLB ((L.foldl applyOp s).1) := by
    intro L
    induction L with
    | nil => exact fun s h => h
    | cons op rest ih =>
      intro s h
      simp only [List.foldl_cons]
      exact ih _ (good_applyOp s op h)
  exact hfold ops _ (good_mk e 0 [])

end TimelineBuilder

theorem styleAt_isSome_of_backFill (own bf : StyleMap) (p : String)
    (h : (smGet bf p).isSome = true) : (styleAt own bf p).isSome = true := by
  unfold styleAt
  cases h2 : smGet own p with
  | some v => rfl
  | none => exact h

/-- The op sequence exhibiting the in-band `easing` exception: a style write,
a time advance, then a style write carrying an easing annotation (which lands
on the *previous* keyframe). -/
def c3Ops : List TLOp :=
  [.setStyles [.map [("opacity", .num 0)]] none false none,
   .forwardTime 10,
   .setStyles [.map [("width", .num 1)]] (some "ease-out") false none]

/-- C3 is false as stated for the reserved in-band `'easing'` key: after
`c3Ops`, the key `"easing"` appears on the keyframe at time 0 (so it is
referenced within the timeline), yet the keyframe at time 10 has no value for
it, neither directly nor from the backfill (`_updateStyle` deliberately skips
`'easing'`, and the easing write goes straight into one keyframe object). -/
theorem c3_backfill_easing_counterexample :
    ((0 : ℚ), [("opacity", SVal.num 0), ("easing", SVal.str "ease-out")]) ∈
      ((TimelineBuilder.runOps "e" c3Ops).1).keyframes ∧
    ((10 : ℚ), [("width", SVal.num 1), ("opacity", SVal.num 0)]) ∈
      ((TimelineBuilder.runOps "e" c3Ops).1).keyframes ∧
    styleAt [("width", SVal.num 1), ("opacity", SVal.num 0)]
      ((TimelineBuilder.runOps "e" c3Ops).1).backFill "easing" = none := by
  decide

/-- C3 (amended): after any sequence of builder calls, for every property
other than the reserved in-band `'easing'` key that appears on any keyframe
of the timeline, every keyframe of that timeline has a value for it, either
directly or inherited from the timeline's backfill set. -/
theorem c3_backfill_completeness_amended (e : String) (ops : List TLOp) (prop : String)
    (hp : prop ≠ "easing") (tk : ℚ × StyleMap)
    (hmem : tk ∈ ((TimelineBuilder.runOps e ops).1).keyframes)
    (href : (smGet tk.2 prop).isSome = true)
    (tk' : ℚ × StyleMap)
    (hmem' : tk' ∈ ((TimelineBuilder.runOps e ops).1).keyframes) :
    (styleAt tk'.2 ((TimelineBuilder.runOps e ops).1).backFill prop).isSome = true := by
  have hG := TimelineBuilder.runOps_good e ops
  exact styleAt_isSome_of_backFill _ _ _ (hG.2 tk hmem prop hp href)

/-- Witness for C3's amended invariant: after `c3Ops` the property `"width"`
(referenced on the keyframe at time 10) has a value at the keyframe at time 0
through the backfill. -/
theorem c3_backfill_completeness_witness :
    (styleAt [("opacity", SVal.num 0), ("easing", SVal.str "ease-out")]
      ((TimelineBuilder.runOps "e" c3Ops).1).backFill "width").isSome = true :=
  c3_backfill_completeness_amended "e" c3Ops "width" (by decide)
    (10, [("width", SVal.num 1), ("opacity", SVal.num 0)]) (by decide) (by decide)
    (0, [("opacity", SVal.num 0), ("easing", SVal.str "ease-out")]) (by decide)
